import Mathlib

/-!
Verification development for the civers archive web interface:
a shallow embedding of the storage-scan-and-cache subsystem
(`app/storage/scanner.py`, `app/storage/providers/filesystem.py`,
`app/storage/service.py`, `app/models/snapshot.py`,
`app/models/responses.py`, `app/api/urls.py`) together with proofs
of the behavioural properties claimed for it.

Strings are modelled as lists of characters (`Str`); Python's
`datetime.strptime` is modelled faithfully at the level of CPython's
`_strptime` regexes, including per-field two-digit/one-digit
alternation order and full-string anchoring, followed by the
`datetime` constructor's range validation.
-/

namespace Civers

/-- Python strings, modelled as lists of characters. -/
abbrev Str := List Char

/-- Numeric value of a decimal digit character. -/
def digitVal (c : Char) : Nat := c.toNat - 48

/-- Value of a two-digit field given its two characters. -/
def twoDig (a b : Char) : Nat := 10 * digitVal a + digitVal b

/-- Python `str.split(sep)` for a single-character separator:
splitting the empty string yields `[""]`, and `n` separators yield
`n+1` (possibly empty) fields. -/
def splitOnChar (c : Char) : Str → List Str
  | [] => [[]]
  | x :: xs =>
    match splitOnChar c xs with
    | [] => [[]]
    | t :: ts => if x = c then [] :: t :: ts else (x :: t) :: ts

/-- One field of a CPython `_strptime` format regex. -/
inductive FItem where
  /-- a literal character in the format -/
  | lit (c : Char)
  /-- `%Y`: exactly four digits -/
  | y4
  /-- a numeric field matching a two-digit alternative with value in
  `[lo2, hi2]` first, then a one-digit alternative with value in
  `[lo1, hi1]` (the alternation order used by `%m`, `%d`, `%H`, `%M`,
  `%S`) -/
  | n2or1 (lo2 hi2 lo1 hi1 : Nat)
deriving DecidableEq

/-- Regex matching for a `_strptime` format against an entire string
(the CPython code rejects unconsumed trailing input), with the
regex engine's greedy backtracking: for each `n2or1` field the
two-digit branch is tried first and the one-digit branch is used
when the remainder of the pattern cannot match. Returns the list
of captured field values. -/
def matchFmt : List FItem → Str → Option (List Nat)
  | [], [] => some []
  | [], _ :: _ => none
  | .lit _ :: _, [] => none
  | .lit c :: fs, x :: xs => if x = c then matchFmt fs xs else none
  | .y4 :: fs, a :: b :: c :: d :: xs =>
    if a.isDigit && b.isDigit && c.isDigit && d.isDigit then
      (matchFmt fs xs).map
        (fun ns => (1000 * digitVal a + 100 * digitVal b + 10 * digitVal c + digitVal d) :: ns)
    else none
  | .y4 :: _, _ => none
  | .n2or1 lo2 hi2 lo1 hi1 :: fs, s =>
    (match s with
     | a :: b :: xs =>
       if a.isDigit && b.isDigit && decide (lo2 ≤ twoDig a b) && decide (twoDig a b ≤ hi2) then
         (matchFmt fs xs).map (twoDig a b :: ·)
       else none
     | _ => none).orElse fun _ =>
    (match s with
     | a :: xs =>
       if a.isDigit && decide (lo1 ≤ digitVal a) && decide (digitVal a ≤ hi1) then
         (matchFmt fs xs).map (digitVal a :: ·)
       else none
     | _ => none)

/-- `%m`: `1[0-2]|0[1-9]|[1-9]`. -/
def fMonth : FItem := .n2or1 1 12 1 9
/-- `%d`: `3[01]|[12]\d|0[1-9]|[1-9]`. -/
def fDay : FItem := .n2or1 1 31 1 9
/-- `%H`: `2[0-3]|[0-1]\d|\d`. -/
def fHour : FItem := .n2or1 0 23 0 9
/-- `%M`: `[0-5]\d|\d`. -/
def fMinute : FItem := .n2or1 0 59 0 9
/-- `%S`: `6[0-1]|[0-5]\d|\d`. -/
def fSecond : FItem := .n2or1 0 61 0 9

/-- The format `'%Y%m%d_%H%M%S'`. -/
def fmtYmdHMS : List FItem := [.y4, fMonth, fDay, .lit '_', fHour, fMinute, fSecond]

/-- The format `'%Y%m%dT%H%M%SZ'`. -/
def fmtCompact : List FItem :=
  [.y4, fMonth, fDay, .lit 'T', fHour, fMinute, fSecond, .lit 'Z']

/-- The format `'%Y-%m-%d_%H-%M-%S'`. -/
def fmtDashed : List FItem :=
  [.y4, .lit '-', fMonth, .lit '-', fDay, .lit '_', fHour, .lit '-', fMinute, .lit '-', fSecond]

/-- A `datetime.datetime` value. -/
structure DateTime where
  year : Nat
  month : Nat
  day : Nat
  hour : Nat
  minute : Nat
  second : Nat
deriving DecidableEq, Repr

/-- Gregorian leap-year test, as in Python's `calendar.isleap`. -/
def isLeap (y : Nat) : Bool := (y % 4 == 0 && y % 100 != 0) || y % 400 == 0

/-- Number of days in a month, as validated by the `datetime` constructor. -/
def daysInMonth (y m : Nat) : Nat :=
  if m = 2 then (if isLeap y then 29 else 28)
  else if m = 4 ∨ m = 6 ∨ m = 9 ∨ m = 11 then 30
  else 31

/-- The `datetime` constructor's range validation applied to the six
captured fields `[Y, m, d, H, M, S]`. -/
def mkDateTime : List Nat → Option DateTime
  | [y, m, d, h, mi, s] =>
    if 1 ≤ y ∧ y ≤ 9999 ∧ 1 ≤ m ∧ m ≤ 12 ∧ 1 ≤ d ∧ d ≤ daysInMonth y m
        ∧ h ≤ 23 ∧ mi ≤ 59 ∧ s ≤ 59 then
      some ⟨y, m, d, h, mi, s⟩
    else none
  | _ => none

/-- `datetime.strptime(s, fmt)` for the formats used by the scanner:
a full-anchor regex match followed by constructor validation. -/
def strptime (fmt : List FItem) (s : Str) : Option DateTime :=
  (matchFmt fmt s).bind mkDateTime

/-- The legacy fallback of `_parse_timestamp`: the three whole-name
formats tried in order. -/
def legacyParse (folder_name : Str) : Option DateTime :=
  (strptime fmtCompact folder_name).orElse fun _ =>
  (strptime fmtYmdHMS folder_name).orElse fun _ =>
  strptime fmtDashed folder_name

/-- `StorageScanner._parse_timestamp` / `FilesystemStorageProvider._parse_timestamp`:
for names with the `req_` prefix and at least three `_`-separated
tokens (including the leading `req` token itself), the last two tokens
are parsed as `YYYYMMDD_HHMMSS`; on any failure the three legacy
whole-name formats are tried in order. -/
def parse_timestamp (folder_name : Str) : Option DateTime :=
  if "req_".data.isPrefixOf folder_name then
    match (splitOnChar '_' folder_name).reverse with
    | time_part :: date_part :: _ :: _ =>
      match strptime fmtYmdHMS (date_part ++ '_' :: time_part) with
      | some dt => some dt
      | none => legacyParse folder_name
    | _ => legacyParse folder_name
  else legacyParse folder_name

/-- The decimal digit character for `n < 10`. -/
def toDigit (n : Nat) : Char := Char.ofNat (48 + n)

/-- The canonical two-digit rendering of `n ≤ 99`. -/
def fmt2 (n : Nat) : Str := [toDigit (n / 10), toDigit (n % 10)]

/-- The canonical four-digit rendering of `n ≤ 9999`. -/
def fmt4 (n : Nat) : Str :=
  [toDigit (n / 1000), toDigit (n / 100 % 10), toDigit (n / 10 % 10), toDigit (n % 10)]

/-- The `YYYYMMDD` token of a date. -/
def dateToken (y m d : Nat) : Str := fmt4 y ++ fmt2 m ++ fmt2 d

/-- The `HHMMSS` token of a time of day. -/
def timeToken (h mi s : Nat) : Str := fmt2 h ++ fmt2 mi ++ fmt2 s

/-! ## Metadata documents (`_parse_metadata_json`, URL extraction) -/

/-- A parsed JSON value, as produced by `json.load`. Object fields are
kept as an ordered association list with distinct keys (Python dicts). -/
inductive Json where
  | null
  | bool (b : Bool)
  | num (n : Int)
  | str (s : Str)
  | arr (xs : List Json)
  | obj (fields : List (Str × Json))

/-- First-match association-list lookup, modelling Python dict access. -/
def jLookup (k : Str) : List (Str × Json) → Option Json
  | [] => none
  | (k', v) :: rest => if k' = k then some v else jLookup k rest

/-- `dict.get(k, default)`. -/
def dictGet (fields : List (Str × Json)) (k : Str) (dflt : Json) : Json :=
  (jLookup k fields).getD dflt

/-- Python truthiness (`if not url: ...`) on JSON values. -/
def truthy : Json → Bool
  | .null => false
  | .bool b => b
  | .num n => n != 0
  | .str s => !s.isEmpty
  | .arr xs => !xs.isEmpty
  | .obj fs => !fs.isEmpty

/-- The state of a capture directory's `metadata.json` file as seen
by the parser: absent, present but not valid JSON, or parsed. -/
inductive MetadataFile where
  | missing
  | malformed
  | parsed (j : Json)

/-- `true` when the file exists on disk (used for artifact detection). -/
def MetadataFile.existsOnDisk : MetadataFile → Bool
  | .missing => false
  | _ => true

/-- `StorageScanner._parse_metadata_json` /
`FilesystemStorageProvider._parse_metadata_json`: a missing file,
malformed JSON, or a non-object top level all yield the empty
document; an object yields its fields. Never raises. -/
def parse_metadata_json : MetadataFile → List (Str × Json)
  | .missing => []
  | .malformed => []
  | .parsed (.obj fields) => fields
  | .parsed _ => []

/-- Value of a hexadecimal digit character, if any. -/
def hexVal (c : Char) : Option Nat :=
  if '0' ≤ c ∧ c ≤ '9' then some (c.toNat - 48)
  else if 'A' ≤ c ∧ c ≤ 'F' then some (c.toNat - 55)
  else if 'a' ≤ c ∧ c ≤ 'f' then some (c.toNat - 87)
  else none

/-- `urllib.parse.unquote`: percent-decoding. Each valid `%XX` pair is
decoded to one character; multi-byte UTF-8 sequences are decoded
bytewise in this model. Invalid escapes are passed through. -/
def unquote : Str → Str
  | [] => []
  | '%' :: a :: b :: rest =>
    match hexVal a, hexVal b with
    | some x, some y => Char.ofNat (16 * x + y) :: unquote rest
    | _, _ => '%' :: unquote (a :: b :: rest)
  | c :: rest => c :: unquote rest

/-- `str.replace(a, b)` for single characters. -/
def pyReplace (a b : Char) (s : Str) : Str :=
  s.map fun c => if c = a then b else c

/-- The URL-reconstruction fallback of `_scan_snapshot_directory`:
URL-decode the id with `_` turned into `/`, then add an `https://`
scheme if none is present. -/
def reconstructUrl (url_id : Str) : Str :=
  let u := unquote (pyReplace '_' '/' url_id)
  if "http://".data.isPrefixOf u ∨ "https://".data.isPrefixOf u then u
  else "https://".data ++ u

/-- The URL-extraction logic of `_scan_snapshot_directory` (scanner and
filesystem provider alike): if the metadata document is non-empty and
has an `archive_info` key, use `archive_info.get('url', '')` —
`none` models the `AttributeError` raised when `archive_info` is not
an object, which the caller turns into a dropped snapshot; otherwise,
if the document is non-empty, use its top-level `url` field; a falsy
result is replaced by the reconstruction from the resource id. -/
def extract_url (metadata : List (Str × Json)) (url_id : Str) : Option Json :=
  let url0 : Option Json :=
    if ¬metadata.isEmpty ∧ (jLookup "archive_info".data metadata).isSome then
      match jLookup "archive_info".data metadata with
      | some (.obj fs) => some (dictGet fs "url".data (.str []))
      | _ => none
    else if ¬metadata.isEmpty then some (dictGet metadata "url".data (.str []))
    else some (.str [])
  match url0 with
  | none => none
  | some u => if truthy u then some u else some (.str (reconstructUrl url_id))

/-! ## Scanner entities and the three-level directory walk -/

/-- Comparison key order: lexicographic on lists of naturals, the
order Python uses on tuples of integers. -/
def natListLt : List Nat → List Nat → Bool
  | [], [] => false
  | [], _ :: _ => true
  | _ :: _, [] => false
  | a :: as, b :: bs => if a < b then true else if b < a then false else natListLt as bs

/-- The comparison tuple of a `datetime`. -/
def DateTime.toList (t : DateTime) : List Nat :=
  [t.year, t.month, t.day, t.hour, t.minute, t.second]

/-- Python `<` on `datetime` values (lexicographic on the fields). -/
def dtLt (a b : DateTime) : Bool := natListLt a.toList b.toList

/-- A scanner `Snapshot` (dataclass in `scanner.py`): identity, parsed
instant, extracted URL and title, raw metadata document, and the
artifact files found on disk. -/
structure Snap where
  snapshot_id : Str
  timestamp : DateTime
  url : Json
  title : Json
  metadata : List (Str × Json)
  available_artifacts : List Str

/-- A scanner `ArchivedUrl`: resource id, canonical URL, folder label
and the newest-first list of snapshots. -/
structure AUrl where
  url_id : Str
  original_url : Json
  folder_name : Str
  snapshots : List Snap

/-- A capture directory on disk: its name, the state of its
`metadata.json`, and which of the other three artifact files exist. -/
structure SnapDir where
  name : Str
  meta : MetadataFile
  hasWacz : Bool
  hasScreenshot : Bool
  hasSinglefile : Bool

/-- An entry of a path-segment directory: a plain file or a
capture subdirectory. -/
inductive PathEntry where
  | file (name : Str)
  | snap (d : SnapDir)

/-- A path-segment directory. -/
structure PathDir where
  name : Str
  entries : List PathEntry

/-- An entry of a domain directory. -/
inductive DomEntry where
  | file (name : Str)
  | path (p : PathDir)

/-- A domain directory. -/
structure DomainDir where
  name : Str
  entries : List DomEntry

/-- An entry of the storage root. -/
inductive RootEntry where
  | file (name : Str)
  | dom (d : DomainDir)

/-- The storage root: missing, not a directory, or its entries. -/
inductive RootState where
  | missing
  | notDir
  | dir (entries : List RootEntry)

/-- The `available_artifacts` recomputation (`Snapshot.__post_init__`
in the scanner, inline in the filesystem provider): existence of each
of the four fixed artifact filenames, in that order. -/
def availableArtifacts (d : SnapDir) : List Str :=
  (if d.hasWacz then ["archive.wacz".data] else []) ++
  (if d.meta.existsOnDisk then ["metadata.json".data] else []) ++
  (if d.hasScreenshot then ["screenshot.png".data] else []) ++
  (if d.hasSinglefile then ["singlefile.html".data] else [])

/-- `_scan_snapshot_directory`: parse the timestamp from the directory
name (skip on failure), parse the metadata, extract the URL (an
extraction exception also drops the snapshot), and build the capture
with its recomputed artifact set. -/
def scan_snapshot_directory (d : SnapDir) (url_id : Str) : Option Snap :=
  match parse_timestamp d.name with
  | none => none
  | some ts =>
    let metadata := parse_metadata_json d.meta
    match extract_url metadata url_id with
    | none => none
    | some url =>
      some { snapshot_id := d.name
             timestamp := ts
             url := url
             title := dictGet metadata "title".data (.str [])
             metadata := metadata
             available_artifacts := availableArtifacts d }

/-- Stable insertion into an ascending-sorted list: the new element
is placed before the first element it is not strictly greater than. -/
def insertSorted (lt : α → α → Bool) (x : α) : List α → List α
  | [] => [x]
  | y :: ys => if lt y x then y :: insertSorted lt x ys else x :: y :: ys

/-- Stable ascending insertion sort (`list.sort` with a key). -/
def sortByLt (lt : α → α → Bool) (l : List α) : List α :=
  l.foldr (insertSorted lt) []

/-- `list.sort(key=..., reverse=True)`: CPython reverses the list,
stable-sorts ascending, and reverses again, giving a descending order
that keeps equal-key elements in their original relative order. -/
def pySortDesc (lt : α → α → Bool) (l : List α) : List α :=
  (sortByLt lt l.reverse).reverse

/-- Adjacent-pairs check: `r` holds between each element and its
successor. -/
def pairwiseAdj (r : α → α → Bool) : List α → Bool
  | [] => true
  | [_] => true
  | x :: y :: rest => r x y && pairwiseAdj r (y :: rest)

/-- The timeout oracle: whether the `k`-th `_check_timeout` call during
a scan reports that the budget is exhausted. -/
abbrev TimeoutOracle := Nat → Bool

/-- The capture loop of `_scan_path_directory`: before each entry the
timeout is checked (breaking out of the loop), plain files and
directories without the `req_` prefix are skipped, and each remaining
directory is scanned. Returns the captures found and the next
timeout-check index. -/
def scan_path_entries (tmo : TimeoutOracle) : List PathEntry → Nat → Str → List Snap × Nat
  | [], k, _ => ([], k)
  | e :: rest, k, url_id =>
    if tmo k then ([], k + 1)
    else
      match e with
      | .file _ => scan_path_entries tmo rest (k + 1) url_id
      | .snap d =>
        if "req_".data.isPrefixOf d.name then
          match scan_snapshot_directory d url_id with
          | some s =>
            let (ss, k') := scan_path_entries tmo rest (k + 1) url_id
            (s :: ss, k')
          | none => scan_path_entries tmo rest (k + 1) url_id
        else scan_path_entries tmo rest (k + 1) url_id

/-- `_scan_path_directory`. -/
def scan_path_directory (tmo : TimeoutOracle) (k : Nat) (p : PathDir) (domain : Str) :
    List Snap × Nat :=
  scan_path_entries tmo p.entries k (domain ++ '_' :: p.name)

/-- The path loop of `_scan_domain_directory`: timeout check before
each entry, plain files skipped, each path directory scanned; a path
with no valid captures contributes nothing, otherwise its captures are
sorted newest-first and folded into an `ArchivedUrl` whose canonical
URL is the newest capture's URL. -/
def scan_domain_entries (tmo : TimeoutOracle) :
    List DomEntry → Nat → Str → List AUrl × Nat
  | [], k, _ => ([], k)
  | e :: rest, k, domain =>
    if tmo k then ([], k + 1)
    else
      match e with
      | .file _ => scan_domain_entries tmo rest (k + 1) domain
      | .path p =>
        let (snaps, k') := scan_path_directory tmo (k + 1) p domain
        if snaps.isEmpty then scan_domain_entries tmo rest k' domain
        else
          let sorted := pySortDesc (fun a b => dtLt a.timestamp b.timestamp) snaps
          let original_url : Json :=
            match sorted with
            | s :: _ => s.url
            | [] => .str ("https://".data ++ pyReplace '_' '.' domain)
          let au : AUrl :=
            { url_id := domain ++ '_' :: p.name
              original_url := original_url
              folder_name := domain ++ '/' :: p.name
              snapshots := sorted }
          let (rest', k'') := scan_domain_entries tmo rest k' domain
          (au :: rest', k'')

/-- Insert-or-overwrite into an ordered association list, as Python
dict assignment: an existing key keeps its position. -/
def dictInsert (m : List (Str × AUrl)) (key : Str) (v : AUrl) : List (Str × AUrl) :=
  match m with
  | [] => [(key, v)]
  | (k', v') :: rest =>
    if k' = key then (k', v) :: rest else (k', v') :: dictInsert rest key v

/-- The domain loop of `StorageScanner.scan` /
`FilesystemStorageProvider._scan_storage`: timeout check before each
entry, plain files skipped, each domain's resources merged into the
catalog keyed by `url_id` (last write wins). -/
def scan_root_entries (tmo : TimeoutOracle) :
    List RootEntry → Nat → List (Str × AUrl) → List (Str × AUrl) × Nat
  | [], k, acc => (acc, k)
  | e :: rest, k, acc =>
    if tmo k then (acc, k + 1)
    else
      match e with
      | .file _ => scan_root_entries tmo rest (k + 1) acc
      | .dom d =>
        let (urls, k') := scan_domain_entries tmo d.entries (k + 1) d.name
        scan_root_entries tmo rest k'
          (urls.foldl (fun m u => dictInsert m u.url_id u) acc)

/-- `StorageScanner.scan`: empty catalog when the root is missing or
not a directory, otherwise the three-level walk. -/
def scan (tmo : TimeoutOracle) (root : RootState) : List (Str × AUrl) :=
  match root with
  | .missing => []
  | .notDir => []
  | .dir entries => (scan_root_entries tmo entries 0 []).1

/-! ## The `Snapshot` model's id validator (`app/models/snapshot.py`) -/

/-- `Snapshot.validate_snapshot_id_format`: `true` when the validator
accepts (returns) the id, `false` when it raises a `ValueError`.
Ids with the `req_` prefix need only length at least 10; any other id
must be exactly 16 characters parsing as `YYYYMMDDTHHMMSSZ`. -/
def validate_snapshot_id (v : Str) : Bool :=
  if "req_".data.isPrefixOf v then decide (10 ≤ v.length)
  else decide (v.length = 16) && (strptime fmtCompact v).isSome

/-! ## Cache layer (`app/storage/service.py`) -/

/-- The mutable state of a `StorageService` cache: the optional cached
catalog and the timestamp of the last refresh, over an abstract
catalog type `α` (distinct values model distinct scan results, so
equality of the field models reference identity). -/
structure CacheState (α : Type) where
  cached : Option α
  ts : ℚ

/-- `StorageService._is_cache_expired`: a non-positive TTL means the
cache is always considered expired; otherwise the entry expires when
strictly more than `ttl` seconds have elapsed. -/
def is_cache_expired (ttl : Int) (ts now : ℚ) : Bool :=
  if ttl ≤ 0 then true else decide ((ttl : ℚ) < now - ts)

/-- What one `get_all_urls` call produced: the returned catalog, the
state afterwards, and whether a provider scan was performed. -/
structure GetResult (α : Type) where
  result : α
  state : CacheState α
  scanned : Bool

/-- `StorageService.get_all_urls` at wall-clock time `now`, where
`scanResult` is the catalog the provider would return if scanned:
refresh when no entry exists or the entry has expired, otherwise
serve the cached catalog unchanged. -/
def get_all_urls (ttl : Int) (now : ℚ) (scanResult : α) (σ : CacheState α) :
    GetResult α :=
  match σ.cached with
  | none => ⟨scanResult, ⟨some scanResult, now⟩, true⟩
  | some c =>
    if is_cache_expired ttl σ.ts now then ⟨scanResult, ⟨some scanResult, now⟩, true⟩
    else ⟨c, σ, false⟩

/-! ## Pagination and listing (`app/models/responses.py`, `app/api/urls.py`) -/

/-- Pagination metadata DTO. -/
structure PaginationMeta where
  page : Nat
  limit : Nat
  total_count : Nat
  total_pages : Nat
  has_next : Bool
  has_previous : Bool
deriving DecidableEq, Repr

/-- `PaginationMeta.create`. -/
def PaginationMeta.create (page limit total_count : Nat) : PaginationMeta :=
  let total_pages := if 0 < total_count then (total_count + limit - 1) / limit else 0
  { page := page
    limit := limit
    total_count := total_count
    total_pages := total_pages
    has_next := decide (page < total_pages)
    has_previous := decide (1 < page) }

/-- The three values of the `sort` query parameter. -/
inductive SortOption where
  | url
  | last_captured
  | snapshot_count
deriving DecidableEq

/-- Python `str.lower()` (ASCII case of the characters appearing in URLs). -/
def pyToLower (s : Str) : Str := s.map Char.toLower

/-- Python `<` on strings: lexicographic by code point. -/
def strLt : Str → Str → Bool
  | [], [] => false
  | [], _ :: _ => true
  | _ :: _, [] => false
  | a :: as, b :: bs =>
    if a.toNat < b.toNat then true
    else if b.toNat < a.toNat then false
    else strLt as bs

/-- The string the listing sorts by: `str(u.original_url).lower()`.
The pipeline always stores the URL as a string (a truthy metadata
string or the reconstruction). -/
def urlSortKey (u : AUrl) : Str :=
  pyToLower (match u.original_url with | .str s => s | _ => [])

/-- `ArchivedUrl.last_captured`: maximum capture instant, if any. -/
def lastCaptured (u : AUrl) : Option DateTime :=
  match u.snapshots.map (·.timestamp) with
  | [] => none
  | t :: ts => some (ts.foldl (fun a b => if dtLt a b then b else a) t)

/-- `datetime.min`, the default sort key when a URL has no captures. -/
def dtMin : DateTime := ⟨1, 1, 1, 0, 0, 0⟩

/-- The sorting step of `list_urls`. -/
def sortUrls (s : SortOption) (l : List AUrl) : List AUrl :=
  match s with
  | .url => sortByLt (fun a b => strLt (urlSortKey a) (urlSortKey b)) l
  | .last_captured =>
    pySortDesc (fun a b => dtLt ((lastCaptured a).getD dtMin) ((lastCaptured b).getD dtMin)) l
  | .snapshot_count =>
    pySortDesc (fun a b => decide (a.snapshots.length < b.snapshots.length)) l

/-- Outcome of the `GET /api/urls` handler: a success page or an
`HTTPException` with its status code. -/
inductive ListResult where
  | ok (data : List AUrl) (pagination : PaginationMeta)
  | httpError (status : Nat)

/-- `true` exactly on the `HTTPException` outcome. -/
def ListResult.isError : ListResult → Bool
  | .ok _ _ => false
  | .httpError _ => true

/-- The page slice of a success outcome. -/
def ListResult.dataList : ListResult → List AUrl
  | .ok d _ => d
  | .httpError _ => []

/-- `list_urls` (`app/api/urls.py`): an empty scan result short-circuits
to an empty success page for any requested page; otherwise the catalog
is sorted, a page beyond the total count (for page > 1) is a 400
error, and the slice `[start_idx : start_idx + limit]` is returned
with its pagination metadata. `page ≥ 1` and `1 ≤ limit ≤ 100` are
enforced upstream by the query-parameter validators. -/
def list_urls (results : List AUrl) (page limit : Nat) (s : SortOption) : ListResult :=
  if results.isEmpty then .ok [] (PaginationMeta.create page limit 0)
  else
    let urls := sortUrls s results
    let total_count := urls.length
    let start_idx := (page - 1) * limit
    if 1 < page ∧ total_count ≤ start_idx then .httpError 400
    else .ok ((urls.drop start_idx).take limit) (PaginationMeta.create page limit total_count)

/-- A concrete resource value used to instantiate universally
quantified statements about the listing. -/
def sampleAUrl : AUrl :=
  { url_id := "example_com_home".data
    original_url := .str "https://example.com/home".data
    folder_name := "example_com/home".data
    snapshots := [] }

/-- A storage root with one domain, one path segment, and two capture
directories carrying the same timestamp under different request ids. -/
def twinCaptureRoot : RootState :=
  .dir [.dom ⟨"example_com".data,
    [.path ⟨"home".data,
      [.snap ⟨"req_a_20240315_143022".data, .missing, false, false, false⟩,
       .snap ⟨"req_b_20240315_143022".data, .missing, false, false, false⟩]⟩]⟩]

/-- The invariant claimed for every resource of a catalog: a non-empty
capture list, sorted descending by timestamp. -/
def GoodAUrl (u : AUrl) : Prop :=
  u.snapshots ≠ [] ∧
    pairwiseAdj (fun a b => dtLt a.timestamp b.timestamp = false) u.snapshots = true

/-! ## Helper lemmas: digits, splitting, format matching -/

theorem toDigit_isDigit : ∀ n : Nat, n < 10 → (toDigit n).isDigit = true := by decide

theorem digitVal_toDigit : ∀ n : Nat, n < 10 → digitVal (toDigit n) = n := by decide

theorem toDigit_ne_usep : ∀ n : Nat, n < 10 → toDigit n ≠ '_' := by decide

theorem twoDig_fmt2 (n : Nat) (hn : n ≤ 99) :
    twoDig (toDigit (n / 10)) (toDigit (n % 10)) = n := by
  have h1 := digitVal_toDigit (n / 10) (by omega)
  have h2 := digitVal_toDigit (n % 10) (by omega)
  simp only [twoDig, h1, h2]
  omega

theorem matchFmt_nil_nil : matchFmt [] [] = some [] := rfl

theorem matchFmt_lit_cons (c : Char) (fs : List FItem) (xs : Str) :
    matchFmt (.lit c :: fs) (c :: xs) = matchFmt fs xs := by
  simp [matchFmt]

theorem matchFmt_y4_fmt4 (fs : List FItem) (y : Nat) (rest : Str) (ns : List Nat)
    (hy : y ≤ 9999) (hrec : matchFmt fs rest = some ns) :
    matchFmt (.y4 :: fs) (fmt4 y ++ rest) = some (y :: ns) := by
  have h1 := toDigit_isDigit (y / 1000) (by omega)
  have h2 := toDigit_isDigit (y / 100 % 10) (by omega)
  have h3 := toDigit_isDigit (y / 10 % 10) (by omega)
  have h4 := toDigit_isDigit (y % 10) (by omega)
  have v1 := digitVal_toDigit (y / 1000) (by omega)
  have v2 := digitVal_toDigit (y / 100 % 10) (by omega)
  have v3 := digitVal_toDigit (y / 10 % 10) (by omega)
  have v4 := digitVal_toDigit (y % 10) (by omega)
  simp only [fmt4, List.cons_append, List.nil_append, matchFmt, h1, h2, h3, h4,
    Bool.and_self, Bool.true_and, if_true, hrec, Option.map_some']
  have hv : 1000 * digitVal (toDigit (y / 1000)) + 100 * digitVal (toDigit (y / 100 % 10)) +
      10 * digitVal (toDigit (y / 10 % 10)) + digitVal (toDigit (y % 10)) = y := by
    rw [v1, v2, v3, v4]; omega
  rw [hv]
  simp [hrec]

theorem matchFmt_n2or1_fmt2 (lo2 hi2 lo1 hi1 : Nat) (fs : List FItem) (n : Nat)
    (rest : Str) (ns : List Nat) (hn : n ≤ 99) (h1 : lo2 ≤ n) (h2 : n ≤ hi2)
    (hrec : matchFmt fs rest = some ns) :
    matchFmt (.n2or1 lo2 hi2 lo1 hi1 :: fs) (fmt2 n ++ rest) = some (n :: ns) := by
  have ha := toDigit_isDigit (n / 10) (by omega)
  have hb := toDigit_isDigit (n % 10) (by omega)
  have htwo := twoDig_fmt2 n hn
  simp [fmt2, matchFmt, ha, hb, htwo, h1, h2, hrec, Option.orElse]

theorem daysInMonth_le (y m : Nat) : daysInMonth y m ≤ 31 := by
  unfold daysInMonth
  split
  · split <;> omega
  · split <;> omega

theorem strptime_canonical (y m d h mi s : Nat)
    (hy1 : 1 ≤ y) (hy : y ≤ 9999) (hm1 : 1 ≤ m) (hm : m ≤ 12)
    (hd1 : 1 ≤ d) (hd : d ≤ daysInMonth y m)
    (hh : h ≤ 23) (hmi : mi ≤ 59) (hs : s ≤ 59) :
    strptime fmtYmdHMS (dateToken y m d ++ '_' :: timeToken h mi s) =
      some ⟨y, m, d, h, mi, s⟩ := by
  have hd31 : d ≤ 31 := le_trans hd (daysInMonth_le y m)
  have hshape : dateToken y m d ++ '_' :: timeToken h mi s =
      fmt4 y ++ (fmt2 m ++ (fmt2 d ++ ('_' :: (fmt2 h ++ (fmt2 mi ++ (fmt2 s ++ [])))))) := by
    simp [dateToken, timeToken, List.append_assoc]
  have hmatch : matchFmt fmtYmdHMS (dateToken y m d ++ '_' :: timeToken h mi s) =
      some [y, m, d, h, mi, s] := by
    rw [hshape]
    simp only [fmtYmdHMS, fMonth, fDay, fHour, fMinute, fSecond]
    apply matchFmt_y4_fmt4 _ _ _ _ hy
    apply matchFmt_n2or1_fmt2 _ _ _ _ _ _ _ _ (by omega) hm1 hm
    apply matchFmt_n2or1_fmt2 _ _ _ _ _ _ _ _ (by omega) hd1 hd31
    rw [matchFmt_lit_cons]
    apply matchFmt_n2or1_fmt2 _ _ _ _ _ _ _ _ (by omega) (by omega) hh
    apply matchFmt_n2or1_fmt2 _ _ _ _ _ _ _ _ (by omega) (by omega) hmi
    apply matchFmt_n2or1_fmt2 _ _ _ _ _ _ _ _ (by omega) (by omega) (by omega)
    exact matchFmt_nil_nil
  rw [strptime, hmatch]
  simp [mkDateTime, hy1, hy, hm1, hm, hd1, hd, hh, hmi, hs]

theorem splitOnChar_ne_nil (c : Char) (s : Str) : splitOnChar c s ≠ [] := by
  induction s with
  | nil => simp [splitOnChar]
  | cons x xs ih =>
    simp only [splitOnChar]
    cases h : splitOnChar c xs with
    | nil => exact absurd h ih
    | cons t ts => by_cases hx : x = c <;> simp [hx]

theorem splitOnChar_append (c : Char) (a b : Str) :
    splitOnChar c (a ++ c :: b) = splitOnChar c a ++ splitOnChar c b := by
  induction a with
  | nil =>
    simp only [List.nil_append, splitOnChar]
    cases h : splitOnChar c b with
    | nil => exact absurd h (splitOnChar_ne_nil c b)
    | cons t ts => simp
  | cons x xs ih =>
    conv_lhs => rw [List.cons_append, splitOnChar, ih]
    conv_rhs => rw [splitOnChar]
    cases h : splitOnChar c xs with
    | nil => exact absurd h (splitOnChar_ne_nil c xs)
    | cons t ts =>
      by_cases hx : x = c <;> simp [hx]

theorem splitOnChar_no_sep (c : Char) (s : Str) (h : ∀ x ∈ s, x ≠ c) :
    splitOnChar c s = [s] := by
  induction s with
  | nil => rfl
  | cons x xs ih =>
    have hx : x ≠ c := h x (List.mem_cons_self x xs)
    have ih' := ih fun y hy => h y (List.mem_cons_of_mem x hy)
    simp only [splitOnChar, ih']
    simp [hx]

theorem dateToken_no_usep (y m d : Nat) (hy : y ≤ 9999) (hm : m ≤ 99) (hd : d ≤ 99) :
    ∀ x ∈ dateToken y m d, x ≠ '_' := by
  intro x hx
  simp only [dateToken, fmt4, fmt2, List.mem_append, List.mem_cons,
    List.not_mem_nil, or_false] at hx
  rcases hx with ((h | h | h | h) | h | h) | h | h <;>
    (subst h; exact toDigit_ne_usep _ (by omega))

theorem timeToken_no_usep (h mi s : Nat) (hh : h ≤ 99) (hmi : mi ≤ 99) (hs : s ≤ 99) :
    ∀ x ∈ timeToken h mi s, x ≠ '_' := by
  intro x hx
  simp only [timeToken, fmt2, List.mem_append, List.mem_cons,
    List.not_mem_nil, or_false] at hx
  rcases hx with ((h | h) | h | h) | h | h <;>
    (subst h; exact toDigit_ne_usep _ (by omega))

theorem req_isPrefixOf_append (t : Str) :
    "req_".data.isPrefixOf ("req_".data ++ t) = true := by
  have h : "req_".data = ['r', 'e', 'q', '_'] := rfl
  rw [h]
  simp [List.isPrefixOf]

theorem req_prefix_shape (s : Str) (h : "req_".data.isPrefixOf s = true) :
    ∃ t, s = 'r' :: 'e' :: 'q' :: '_' :: t := by
  have hd : "req_".data = ['r', 'e', 'q', '_'] := rfl
  rw [hd] at h
  rcases s with _ | ⟨a, _ | ⟨b, _ | ⟨c, _ | ⟨d, t⟩⟩⟩⟩ <;> simp [List.isPrefixOf] at h
  obtain ⟨ha, hb, hc, hde⟩ := h
  subst ha; subst hb; subst hc; subst hde
  exact ⟨t, rfl⟩

theorem matchFmt_y4_head_not_digit (fs : List FItem) (c : Char) (xs : Str)
    (hc : c.isDigit = false) :
    matchFmt (.y4 :: fs) (c :: xs) = none := by
  rcases xs with _ | ⟨b, _ | ⟨e, _ | ⟨f, rest⟩⟩⟩ <;> simp [matchFmt, hc]

theorem legacyParse_head_not_digit (c : Char) (xs : Str) (hc : c.isDigit = false) :
    legacyParse (c :: xs) = none := by
  unfold legacyParse strptime fmtCompact fmtYmdHMS fmtDashed
  rw [matchFmt_y4_head_not_digit _ _ _ hc, matchFmt_y4_head_not_digit _ _ _ hc,
    matchFmt_y4_head_not_digit _ _ _ hc]
  rfl

/-- The first component of claim C7 in reusable form: splitting a
canonical request name isolates the date and time tokens. -/
theorem splitOnChar_req_name (id date time : Str)
    (hdate : ∀ x ∈ date, x ≠ '_') (htime : ∀ x ∈ time, x ≠ '_') :
    splitOnChar '_' ("req_".data ++ id ++ '_' :: (date ++ '_' :: time)) =
      ["req".data] ++ splitOnChar '_' id ++ [date] ++ [time] := by
  have hname : "req_".data ++ id ++ '_' :: (date ++ '_' :: time) =
      "req".data ++ '_' :: (id ++ '_' :: (date ++ '_' :: time)) := rfl
  rw [hname, splitOnChar_append, splitOnChar_append, splitOnChar_append,
    splitOnChar_no_sep '_' date hdate, splitOnChar_no_sep '_' time htime,
    show splitOnChar '_' "req".data = ["req".data] from by decide]
  simp [List.append_assoc]

/-- C7: for every directory name of the valid form
`req_{id}_{YYYYMMDD}_{HHMMSS}` whose last two tokens encode a valid
date and time of day, `_parse_timestamp` returns exactly the encoded
instant, regardless of hyphens or extra underscores inside the `{id}`
part (the `id` below is an arbitrary character list). -/
theorem parse_timestamp_req_canonical (id : Str) (y m d h mi s : Nat)
    (hy1 : 1 ≤ y) (hy : y ≤ 9999) (hm1 : 1 ≤ m) (hm : m ≤ 12)
    (hd1 : 1 ≤ d) (hd : d ≤ daysInMonth y m)
    (hh : h ≤ 23) (hmi : mi ≤ 59) (hs : s ≤ 59) :
    parse_timestamp
      ("req_".data ++ id ++ '_' :: (dateToken y m d ++ '_' :: timeToken h mi s)) =
      some ⟨y, m, d, h, mi, s⟩ := by
  have hpre : "req_".data.isPrefixOf
      ("req_".data ++ id ++ '_' :: (dateToken y m d ++ '_' :: timeToken h mi s)) = true := by
    have h0 := req_isPrefixOf_append
      (id ++ '_' :: (dateToken y m d ++ '_' :: timeToken h mi s))
    rw [List.append_assoc]
    exact h0
  have hsplit := splitOnChar_req_name id (dateToken y m d) (timeToken h mi s)
    (dateToken_no_usep y m d hy (by omega)
      (by have := daysInMonth_le y m; omega))
    (timeToken_no_usep h mi s (by omega) (by omega) (by omega))
  have hrev : (splitOnChar '_'
      ("req_".data ++ id ++ '_' :: (dateToken y m d ++ '_' :: timeToken h mi s))).reverse =
      timeToken h mi s :: dateToken y m d ::
        ((splitOnChar '_' id).reverse ++ ["req".data]) := by
    rw [hsplit]
    simp [List.reverse_append]
  obtain ⟨w, ws, hw⟩ : ∃ w ws,
      (splitOnChar '_' id).reverse ++ ["req".data] = w :: ws := by
    cases hrid : (splitOnChar '_' id).reverse with
    | nil => exact ⟨"req".data, [], rfl⟩
    | cons a as => exact ⟨a, as ++ ["req".data], rfl⟩
  rw [parse_timestamp, if_pos hpre, hrev, hw]
  simp only [strptime_canonical y m d h mi s hy1 hy hm1 hm hd1 hd hh hmi hs]

theorem parse_timestamp_req_short (s : Str) (hpre : "req_".data.isPrefixOf s = true)
    (hlen : (splitOnChar '_' s).length < 3) : parse_timestamp s = none := by
  obtain ⟨t, ht⟩ := req_prefix_shape s hpre
  rcases hrev : (splitOnChar '_' s).reverse with _ | ⟨a, _ | ⟨b, _ | ⟨c, rest⟩⟩⟩
  · rw [parse_timestamp, if_pos hpre, hrev]
    subst ht
    exact legacyParse_head_not_digit 'r' _ (by decide)
  · rw [parse_timestamp, if_pos hpre, hrev]
    subst ht
    exact legacyParse_head_not_digit 'r' _ (by decide)
  · rw [parse_timestamp, if_pos hpre, hrev]
    subst ht
    exact legacyParse_head_not_digit 'r' _ (by decide)
  · exfalso
    have hl := congrArg List.length hrev
    simp only [List.length_reverse, List.length_cons] at hl
    omega

theorem parse_timestamp_req_bad_tokens (s tp dp : Str) (rest : List Str)
    (hpre : "req_".data.isPrefixOf s = true)
    (hrev : (splitOnChar '_' s).reverse = tp :: dp :: rest) (hne : rest ≠ [])
    (hbad : strptime fmtYmdHMS (dp ++ '_' :: tp) = none) :
    parse_timestamp s = none := by
  obtain ⟨t, ht⟩ := req_prefix_shape s hpre
  rcases rest with _ | ⟨c, rest'⟩
  · exact absurd rfl hne
  · rw [parse_timestamp, if_pos hpre, hrev]
    simp only [hbad]
    subst ht
    exact legacyParse_head_not_digit 'r' _ (by decide)

/-! ## Helper lemmas: sorting -/

theorem length_insertSorted (lt : α → α → Bool) (x : α) (l : List α) :
    (insertSorted lt x l).length = l.length + 1 := by
  induction l with
  | nil => rfl
  | cons y ys ih =>
    simp only [insertSorted]
    by_cases h : lt y x <;> simp [h, ih]

theorem length_sortByLt (lt : α → α → Bool) (l : List α) :
    (sortByLt lt l).length = l.length := by
  induction l with
  | nil => rfl
  | cons x xs ih =>
    show (insertSorted lt x (sortByLt lt xs)).length = xs.length + 1
    rw [length_insertSorted, ih]

theorem length_pySortDesc (lt : α → α → Bool) (l : List α) :
    (pySortDesc lt l).length = l.length := by
  simp [pySortDesc, length_sortByLt]

theorem length_sortUrls (s : SortOption) (l : List AUrl) :
    (sortUrls s l).length = l.length := by
  cases s <;> simp [sortUrls, length_sortByLt, length_pySortDesc]

theorem pairwiseAdj_iff_chain (r : α → α → Bool) (l : List α) :
    pairwiseAdj r l = true ↔ List.Chain' (fun a b => r a b = true) l := by
  induction l with
  | nil => simp [pairwiseAdj]
  | cons x xs ih =>
    cases xs with
    | nil => simp [pairwiseAdj]
    | cons y ys =>
      rw [show pairwiseAdj r (x :: y :: ys) = (r x y && pairwiseAdj r (y :: ys)) from rfl]
      rw [List.chain'_cons, Bool.and_eq_true, ih]

theorem pairwiseAdj_insertSorted (lt : α → α → Bool)
    (hasym : ∀ a b, lt a b = true → lt b a = false)
    (x : α) (l : List α)
    (hl : pairwiseAdj (fun a b => lt b a = false) l = true) :
    pairwiseAdj (fun a b => lt b a = false) (insertSorted lt x l) = true := by
  induction l with
  | nil => rfl
  | cons y ys ih =>
    simp only [insertSorted]
    by_cases h : lt y x
    · simp only [h, if_true]
      cases ys with
      | nil =>
        have hxy : lt x y = false := hasym y x h
        simp [insertSorted, pairwiseAdj, hxy]
      | cons z zs =>
        have hl2 : pairwiseAdj (fun a b => lt b a = false) (z :: zs) = true := by
          have := hl
          simp only [pairwiseAdj, Bool.and_eq_true] at this
          exact this.2
        have hyz : lt z y = false := by
          have := hl
          simp only [pairwiseAdj, Bool.and_eq_true] at this
          simpa using this.1
        have hrec := ih hl2
        simp only [insertSorted] at hrec ⊢
        by_cases hz : lt z x
        · simp only [hz, if_true] at hrec ⊢
          simp only [pairwiseAdj, Bool.and_eq_true] at hrec ⊢
          exact ⟨by simpa using hyz, hrec⟩
        · simp only [hz, if_false] at hrec ⊢
          simp only [pairwiseAdj, Bool.and_eq_true] at hrec ⊢
          exact ⟨by simpa using hasym y x h, hrec⟩
    · simp only [h, if_false]
      have hxy : lt y x = false := by simpa using h
      simp only [pairwiseAdj, Bool.and_eq_true]
      exact ⟨by simpa using hxy, hl⟩

theorem pairwiseAdj_sortByLt (lt : α → α → Bool)
    (hasym : ∀ a b, lt a b = true → lt b a = false) (l : List α) :
    pairwiseAdj (fun a b => lt b a = false) (sortByLt lt l) = true := by
  induction l with
  | nil => rfl
  | cons x xs ih =>
    show pairwiseAdj _ (insertSorted lt x (sortByLt lt xs)) = true
    exact pairwiseAdj_insertSorted lt hasym x _ ih

theorem pairwiseAdj_pySortDesc (lt : α → α → Bool)
    (hasym : ∀ a b, lt a b = true → lt b a = false) (l : List α) :
    pairwiseAdj (fun a b => lt a b = false) (pySortDesc lt l) = true := by
  rw [pairwiseAdj_iff_chain]
  rw [pySortDesc, List.chain'_reverse]
  have h := pairwiseAdj_sortByLt lt hasym l.reverse
  rw [pairwiseAdj_iff_chain] at h
  exact h

theorem natListLt_asymm : ∀ a b : List Nat, natListLt a b = true → natListLt b a = false := by
  intro a
  induction a with
  | nil => intro b h; cases b <;> simp_all [natListLt]
  | cons x xs ih =>
    intro b h
    cases b with
    | nil => simp_all [natListLt]
    | cons y ys =>
      simp only [natListLt] at h ⊢
      by_cases hxy : x < y
      · simp [Nat.lt_asymm hxy, Nat.ne_of_lt hxy, hxy]
      · by_cases hyx : y < x
        · simp [hxy, hyx] at h
        · have : ¬ y < x := hyx
          simp only [hxy, if_false, hyx] at h
          simp [hxy, hyx, ih ys h]

theorem dtLt_asymm (a b : DateTime) (h : dtLt a b = true) : dtLt b a = false :=
  natListLt_asymm _ _ h

/-! ## Helper lemmas: the scan invariant -/

theorem scan_domain_entries_good (tmo : TimeoutOracle) (entries : List DomEntry) :
    ∀ k domain u, u ∈ (scan_domain_entries tmo entries k domain).1 → GoodAUrl u := by
  induction entries with
  | nil =>
    intro k domain u hu
    simp [scan_domain_entries] at hu
  | cons e rest ih =>
    intro k domain u hu
    rw [scan_domain_entries.eq_def] at hu
    simp only [] at hu
    by_cases ht : tmo k
    · rw [if_pos ht] at hu; simp at hu
    · rw [if_neg ht] at hu
      cases e with
      | file n => exact ih _ _ _ hu
      | path p =>
        simp only [] at hu
        rcases hsp : scan_path_directory tmo (k + 1) p domain with ⟨snaps, k'⟩
        rw [hsp] at hu
        simp only [] at hu
        by_cases hemp : snaps.isEmpty = true
        · simp only [hemp, if_true] at hu
          exact ih _ _ _ hu
        · rcases hrec : scan_domain_entries tmo rest k' domain with ⟨rest', k''⟩
          simp only [hemp, if_false, hrec] at hu
          rcases List.mem_cons.mp hu with h | h
          · subst h
            constructor
            · intro hnil
              simp only [] at hnil
              have hlen := length_pySortDesc
                (fun a b : Snap => dtLt a.timestamp b.timestamp) snaps
              rw [hnil] at hlen
              simp only [List.length_nil] at hlen
              have hsnil : snaps = [] := List.eq_nil_of_length_eq_zero hlen.symm
              rw [hsnil] at hemp
              simp at hemp
            · show pairwiseAdj (fun a b => dtLt a.timestamp b.timestamp = false)
                (pySortDesc (fun a b => dtLt a.timestamp b.timestamp) snaps) = true
              exact pairwiseAdj_pySortDesc (fun a b => dtLt a.timestamp b.timestamp)
                (fun a b hab => dtLt_asymm _ _ hab) snaps
          · have := ih k' domain u
            rw [hrec] at this
            exact this h

theorem mem_dictInsert (m : List (Str × AUrl)) (key : Str) (v : AUrl)
    (kv : Str × AUrl) (h : kv ∈ dictInsert m key v) : kv.2 = v ∨ kv ∈ m := by
  induction m with
  | nil =>
    simp only [dictInsert, List.mem_singleton] at h
    subst h
    exact Or.inl rfl
  | cons p rest ih =>
    rcases p with ⟨k', v'⟩
    simp only [dictInsert] at h
    by_cases hk : k' = key
    · simp only [hk, if_true] at h
      rcases List.mem_cons.mp h with h1 | h1
      · subst h1; exact Or.inl rfl
      · exact Or.inr (List.mem_cons_of_mem _ h1)
    · simp only [hk, if_false] at h
      rcases List.mem_cons.mp h with h1 | h1
      · subst h1; exact Or.inr (List.mem_cons_self _ _)
      · rcases ih h1 with h2 | h2
        · exact Or.inl h2
        · exact Or.inr (List.mem_cons_of_mem _ h2)

theorem mem_foldl_dictInsert (urls : List AUrl) :
    ∀ (acc : List (Str × AUrl)) (kv : Str × AUrl),
      kv ∈ urls.foldl (fun m u => dictInsert m u.url_id u) acc →
      (∃ u ∈ urls, kv.2 = u) ∨ kv ∈ acc := by
  induction urls with
  | nil => intro acc kv h; exact Or.inr h
  | cons u us ih =>
    intro acc kv h
    rcases ih _ kv h with h1 | h1
    · rcases h1 with ⟨w, hw, hkv⟩
      exact Or.inl ⟨w, List.mem_cons_of_mem _ hw, hkv⟩
    · rcases mem_dictInsert _ _ _ _ h1 with h2 | h2
      · exact Or.inl ⟨u, List.mem_cons_self _ _, h2⟩
      · exact Or.inr h2

theorem scan_root_entries_good (tmo : TimeoutOracle) (entries : List RootEntry) :
    ∀ (k : Nat) (acc : List (Str × AUrl)),
      (∀ kv ∈ acc, GoodAUrl kv.2) →
      ∀ kv ∈ (scan_root_entries tmo entries k acc).1, GoodAUrl kv.2 := by
  induction entries with
  | nil =>
    intro k acc hacc kv hkv
    simp only [scan_root_entries] at hkv
    exact hacc kv hkv
  | cons e rest ih =>
    intro k acc hacc kv hkv
    rw [scan_root_entries.eq_def] at hkv
    simp only [] at hkv
    by_cases ht : tmo k
    · rw [if_pos ht] at hkv; exact hacc kv hkv
    · rw [if_neg ht] at hkv
      cases e with
      | file n => exact ih _ _ hacc kv hkv
      | dom d =>
        simp only [] at hkv
        rcases hd : scan_domain_entries tmo d.entries (k + 1) d.name with ⟨urls, k'⟩
        rw [hd] at hkv
        simp only [] at hkv
        refine ih _ _ ?_ kv hkv
        intro kv' hkv'
        rcases mem_foldl_dictInsert urls acc kv' hkv' with h1 | h1
        · rcases h1 with ⟨w, hw, hkv2⟩
          rw [hkv2]
          have := scan_domain_entries_good tmo d.entries (k + 1) d.name w
          rw [hd] at this
          exact this hw
        · exact hacc kv' h1

theorem scan_good (tmo : TimeoutOracle) (root : RootState) :
    ∀ kv ∈ scan tmo root, GoodAUrl kv.2 := by
  intro kv hkv
  cases root with
  | missing => simp [scan] at hkv
  | notDir => simp [scan] at hkv
  | dir entries =>
    exact scan_root_entries_good tmo entries 0 [] (by intro kv' h; simp at h) kv hkv

/-! ## Claim theorems -/

/-- C7 witness: a concrete valid request name parses to its encoded instant. -/
theorem parse_timestamp_req_canonical_witness :
    parse_timestamp ("req_".data ++ "abc-1".data ++
        '_' :: (dateToken 2024 3 15 ++ '_' :: timeToken 14 30 22)) =
      some ⟨2024, 3, 15, 14, 30, 22⟩ :=
  parse_timestamp_req_canonical "abc-1".data 2024 3 15 14 30 22
    (by decide) (by decide) (by decide) (by decide) (by decide) (by decide)
    (by decide) (by decide) (by decide)

/-- C3 counterexample: the name `req_20240315_143022` — of the form
`req_{YYYYMMDD}_{HHMMSS}` with no request-id token — is accepted by
`_parse_timestamp` (the claim says it is rejected): the leading `req`
token itself is counted, so only two tokens after the prefix are
required. -/
theorem parse_timestamp_no_request_id_counterexample :
    parse_timestamp "req_20240315_143022".data = some ⟨2024, 3, 15, 14, 30, 22⟩ := by
  decide

/-- C3 (amended): for names with the `req_` prefix, `_parse_timestamp`
returns none whenever the name has fewer than three `_`-separated
tokens in total — that is, fewer than two tokens after the prefix —
and likewise whenever the last two tokens fail to parse as
`YYYYMMDD_HHMMSS`; but a name `req_{YYYYMMDD}_{HHMMSS}` with no
request-id token is accepted and parses to the encoded instant. -/
theorem parse_timestamp_reject_spec :
    (∀ s : Str, "req_".data.isPrefixOf s = true →
      (splitOnChar '_' s).length < 3 → parse_timestamp s = none) ∧
    (∀ (s tp dp : Str) (rest : List Str), "req_".data.isPrefixOf s = true →
      (splitOnChar '_' s).reverse = tp :: dp :: rest → rest ≠ [] →
      strptime fmtYmdHMS (dp ++ '_' :: tp) = none →
      parse_timestamp s = none) ∧
    (parse_timestamp "req_20240315_143022".data = some ⟨2024, 3, 15, 14, 30, 22⟩) :=
  ⟨parse_timestamp_req_short, parse_timestamp_req_bad_tokens, by decide⟩

/-- C3 witness: a `req_`-name with a single token after the prefix is
rejected, and one whose final tokens are not a timestamp is rejected. -/
theorem parse_timestamp_reject_spec_witness :
    parse_timestamp "req_ab".data = none ∧
    parse_timestamp "req_invalid_format".data = none :=
  ⟨parse_timestamp_reject_spec.1 "req_ab".data (by decide) (by decide),
   parse_timestamp_reject_spec.2.1 "req_invalid_format".data
     "format".data "invalid".data ["req".data] (by decide) (by decide)
     (by decide) (by decide)⟩

/-- C6: the metadata parser is total — a missing file, a file with
malformed JSON, and a JSON document whose top level is not an object
all yield the empty document, and an object document yields its
fields; no input raises. -/
theorem parse_metadata_contract :
    parse_metadata_json .missing = [] ∧
    parse_metadata_json .malformed = [] ∧
    (∀ j : Json, (∀ fs, j ≠ .obj fs) → parse_metadata_json (.parsed j) = []) ∧
    (∀ fs, parse_metadata_json (.parsed (.obj fs)) = fs) := by
  refine ⟨rfl, rfl, ?_, fun fs => rfl⟩
  intro j h
  cases j <;> first | rfl | exact absurd rfl (h _)

/-- C6 witness: a top-level JSON array yields the empty document. -/
theorem parse_metadata_contract_witness :
    parse_metadata_json (.parsed (.arr [])) = [] :=
  parse_metadata_contract.2.2.1 (.arr []) (fun _ h => Json.noConfusion h)

/-- C8: with a non-positive TTL every `get_all_urls` call performs a
fresh provider scan and replaces the entry; the cached catalog is
never served. -/
theorem cache_disabled_spec (α : Type) (ttl : Int) (now : ℚ) (s : α)
    (σ : CacheState α) (h : ttl ≤ 0) :
    get_all_urls ttl now s σ = ⟨s, ⟨some s, now⟩, true⟩ := by
  cases hc : σ.cached with
  | none => simp [get_all_urls, hc]
  | some c => simp [get_all_urls, hc, is_cache_expired, h]

/-- C8 witness: with ttl = 0 a populated, recent cache entry is still
replaced by a fresh scan. -/
theorem cache_disabled_spec_witness :
    get_all_urls (α := Nat) 0 5 7 ⟨some 3, 2⟩ = ⟨7, ⟨some 7, 5⟩, true⟩ :=
  cache_disabled_spec Nat 0 5 7 ⟨some 3, 2⟩ (by decide)

/-- C2 counterexample: with ttl = 10 and an entry refreshed at time 0,
`get()` calls at times 9 and 11 are separated by less than ttl seconds,
yet the second call rescans and returns a different catalog — the
staleness clock runs from the entry's refresh time, not from the
previous call. -/
theorem cache_close_calls_counterexample :
    ((11 : ℚ) - 9 < 10) ∧
    (get_all_urls 10 9 1 (⟨some 0, 0⟩ : CacheState Nat)).scanned = false ∧
    (get_all_urls 10 11 1
      (get_all_urls 10 9 1 (⟨some 0, 0⟩ : CacheState Nat)).state).scanned = true ∧
    (get_all_urls 10 11 1
        (get_all_urls 10 9 1 (⟨some 0, 0⟩ : CacheState Nat)).state).result ≠
      (get_all_urls 10 9 1 (⟨some 0, 0⟩ : CacheState Nat)).result := by
  refine ⟨by norm_num, ?_, ?_, ?_⟩ <;> norm_num [get_all_urls, is_cache_expired]

/-- C2 (amended): for a cache entry refreshed at time `ts` with
ttl > 0: two `get()` calls both at most ttl seconds after `ts` return
the reference-identical cached catalog with no rescan; a `get()` more
than ttl seconds after `ts` performs one rescan, replacing the entry
with the fresh provider result; and when the first call is within ttl
of `ts` and the second is more than ttl seconds after the first, the
pair performs exactly one rescan, at the second call. -/
theorem cache_ttl_spec (α : Type) (ttl : Int) (c s1 s2 : α) (ts t1 t2 : ℚ)
    (httl : 0 < ttl) :
    (t1 - ts ≤ (ttl : ℚ) → t2 - ts ≤ (ttl : ℚ) →
      (get_all_urls ttl t1 s1 ⟨some c, ts⟩).result = c ∧
      (get_all_urls ttl t1 s1 ⟨some c, ts⟩).scanned = false ∧
      (get_all_urls ttl t2 s2 (get_all_urls ttl t1 s1 ⟨some c, ts⟩).state).result = c ∧
      (get_all_urls ttl t2 s2 (get_all_urls ttl t1 s1 ⟨some c, ts⟩).state).scanned = false) ∧
    ((ttl : ℚ) < t2 - ts →
      get_all_urls ttl t2 s2 ⟨some c, ts⟩ = ⟨s2, ⟨some s2, t2⟩, true⟩) ∧
    (t1 - ts ≤ (ttl : ℚ) → (ttl : ℚ) < t2 - t1 → ts ≤ t1 →
      (get_all_urls ttl t1 s1 ⟨some c, ts⟩).scanned = false ∧
      (get_all_urls ttl t2 s2 (get_all_urls ttl t1 s1 ⟨some c, ts⟩).state).scanned = true) := by
  have httl' : ¬ (ttl ≤ 0) := by omega
  have hfresh : ∀ (t : ℚ) (sr : α), t - ts ≤ (ttl : ℚ) →
      get_all_urls ttl t sr ⟨some c, ts⟩ = ⟨c, ⟨some c, ts⟩, false⟩ := by
    intro t sr h
    have hnl : ¬ ((ttl : ℚ) < t - ts) := not_lt.mpr h
    simp [get_all_urls, is_cache_expired, httl', hnl]
  refine ⟨?_, ?_, ?_⟩
  · intro h1 h2
    rw [hfresh t1 s1 h1]
    rw [hfresh t2 s2 h2]
    exact ⟨rfl, rfl, rfl, rfl⟩
  · intro h
    simp [get_all_urls, is_cache_expired, httl', h]
  · intro h1 h2 h3
    rw [hfresh t1 s1 h1]
    have hexp : (ttl : ℚ) < t2 - ts := by linarith
    simp [get_all_urls, is_cache_expired, httl', hexp]

/-- C2 witness: with ttl = 10 and an entry refreshed at time 0, a call
at time 3 serves the cache without scanning and a call at time 20
(more than ttl after the first call) rescans. -/
theorem cache_ttl_spec_witness :
    (get_all_urls 10 3 1 (⟨some 0, 0⟩ : CacheState Nat)).scanned = false ∧
    (get_all_urls 10 20 2
      (get_all_urls 10 3 1 (⟨some 0, 0⟩ : CacheState Nat)).state).scanned = true :=
  (cache_ttl_spec Nat 10 0 1 2 0 3 20 (by decide)).2.2
    (by norm_num) (by norm_num) (by norm_num)

/-- C10: the `Snapshot` model's id validator accepts exactly the ids
with the `req_` prefix and length at least 10, or of length 16 parsing
as `YYYYMMDDTHHMMSSZ`; the legacy forms `YYYYMMDD_HHMMSS` and
`YYYY-MM-DD_HH-MM-SS` accepted by the timestamp parser are rejected by
the validator, and on the provider's path scan such a capture
directory (having no `req_` prefix) contributes no capture. -/
theorem snapshot_id_validator_spec :
    (∀ v : Str, validate_snapshot_id v = true ↔
      ("req_".data.isPrefixOf v = true ∧ 10 ≤ v.length) ∨
      (v.length = 16 ∧ (strptime fmtCompact v).isSome = true)) ∧
    (validate_snapshot_id "20240315_143022".data = false ∧
      parse_timestamp "20240315_143022".data = some ⟨2024, 3, 15, 14, 30, 22⟩) ∧
    (validate_snapshot_id "2024-03-15_14-30-22".data = false ∧
      parse_timestamp "2024-03-15_14-30-22".data = some ⟨2024, 3, 15, 14, 30, 22⟩) ∧
    (validate_snapshot_id "req_test-request-1_20250904_061411".data = true) ∧
    (validate_snapshot_id "20240315T143022Z".data = true) ∧
    (scan_path_entries (fun _ => false)
        [.snap ⟨"20240315_143022".data, .missing, false, false, false⟩] 0
        "example_com_home".data = ([], 1)) := by
  refine ⟨?_, by decide, by decide, by decide, by decide, by rfl⟩
  intro v
  rw [validate_snapshot_id]
  by_cases hpre : "req_".data.isPrefixOf v = true
  · rw [if_pos hpre]
    simp only [hpre, true_and, decide_eq_true_eq]
    constructor
    · exact fun h => Or.inl h
    · rintro (h | ⟨h16, _⟩)
      · exact h
      · omega
  · rw [if_neg hpre]
    simp [hpre]

/-- C1 counterexample: on an empty catalog, page 2 (whose start offset
0·10 ≥ 0 = total count) is answered with an empty success page, not an
out-of-range error — the handler short-circuits before the bound
check whenever the scan result is empty. -/
theorem list_urls_empty_page2_counterexample :
    list_urls [] 2 10 SortOption.url = .ok [] (PaginationMeta.create 2 10 0) ∧
    (list_urls [] 2 10 SortOption.url).isError = false :=
  ⟨rfl, rfl⟩

/-- C1 (amended): for every NON-empty catalog, a requested page > 1
whose start offset `(page-1)*limit` is at or beyond the total count
fails with the HTTP 400 out-of-range error; page 1 never errors; and
on an empty catalog every requested page — not only page 1 — returns
a zero-item success page. -/
theorem list_urls_out_of_range_spec (cat : List AUrl) (page limit : Nat)
    (s : SortOption) :
    (cat ≠ [] → 1 < page → cat.length ≤ (page - 1) * limit →
      list_urls cat page limit s = .httpError 400) ∧
    ((list_urls cat 1 limit s).isError = false) ∧
    (∀ p, list_urls [] p limit s = .ok [] (PaginationMeta.create p limit 0)) := by
  refine ⟨?_, ?_, ?_⟩
  · intro hne hpage hoff
    have hcne : cat.isEmpty = false := by
      cases cat
      · exact absurd rfl hne
      · rfl
    simp [list_urls, hcne, length_sortUrls, hpage, hoff]
  · by_cases hc : cat.isEmpty = true
    · simp [list_urls, hc, ListResult.isError]
    · simp [list_urls, hc, ListResult.isError]
  · intro p
    simp [list_urls]

/-- C1 witness: a one-element catalog with page 2 and limit 1 is an
out-of-range request and yields the 400 error. -/
theorem list_urls_out_of_range_spec_witness :
    list_urls [sampleAUrl] 2 1 SortOption.url = .httpError 400 :=
  (list_urls_out_of_range_spec [sampleAUrl] 2 1 SortOption.url).1
    (List.cons_ne_nil _ _) (by decide) (by simp)

/-- C9: `total_pages` is the ceiling `(total_count + limit - 1) / limit`,
equal to 0 when `total_count = 0`; concretely, with 95 items and
limit 10 there are 10 pages, page 10 holds exactly 5 items, page 11 is
the out-of-range error, and with 0 items page 1 is an empty non-error
page. -/
theorem pagination_spec (u : AUrl) (p l t : Nat) (hl : 1 ≤ l) :
    ((PaginationMeta.create p l t).total_pages = (t + l - 1) / l) ∧
    ((PaginationMeta.create p l 0).total_pages = 0) ∧
    ((PaginationMeta.create 10 10 95).total_pages = 10) ∧
    ((list_urls (List.replicate 95 u) 10 10 SortOption.url).isError = false) ∧
    ((list_urls (List.replicate 95 u) 10 10 SortOption.url).dataList.length = 5) ∧
    (list_urls (List.replicate 95 u) 11 10 SortOption.url = .httpError 400) ∧
    (list_urls [] 1 l SortOption.url = .ok [] (PaginationMeta.create 1 l 0)) := by
  have hne : (List.replicate 95 u).isEmpty = false := by simp
  have hlen : (sortUrls SortOption.url (List.replicate 95 u)).length = 95 := by
    rw [length_sortUrls, List.length_replicate]
  refine ⟨?_, ?_, by decide, ?_, ?_, ?_, by simp [list_urls]⟩
  · show (if 0 < t then (t + l - 1) / l else 0) = (t + l - 1) / l
    split
    · rfl
    · rename_i h
      have ht : t = 0 := by omega
      subst ht
      symm
      apply Nat.div_eq_of_lt
      omega
  · show (if 0 < 0 then (0 + l - 1) / l else 0) = 0
    simp
  · have hmain : list_urls (List.replicate 95 u) 10 10 SortOption.url =
        .ok (((sortUrls SortOption.url (List.replicate 95 u)).drop ((10 - 1) * 10)).take 10)
          (PaginationMeta.create 10 10 95) := by
      simp only [list_urls, hne, Bool.false_eq_true, if_false, hlen]
      rw [if_neg (by omega)]
    rw [hmain]
    rfl
  · have hmain : list_urls (List.replicate 95 u) 10 10 SortOption.url =
        .ok (((sortUrls SortOption.url (List.replicate 95 u)).drop ((10 - 1) * 10)).take 10)
          (PaginationMeta.create 10 10 95) := by
      simp only [list_urls, hne, Bool.false_eq_true, if_false, hlen]
      rw [if_neg (by omega)]
    rw [hmain]
    simp only [ListResult.dataList, List.length_take, List.length_drop, hlen]
    omega
  · simp only [list_urls, hne, Bool.false_eq_true, if_false, hlen]
    rw [if_pos (by omega)]

/-- C9 witness: the theorem instantiated at a concrete catalog element
and limit. -/
theorem pagination_spec_witness :
    (PaginationMeta.create 10 10 95).total_pages = 10 :=
  (pagination_spec sampleAUrl 1 1 0 (by decide)).2.2.1

/-- C4 counterexample: when `archive_info` is present but carries no
`url`, the top-level `url` field is NOT consulted (the claim says it
is used next): the URL is reconstructed from the resource id instead. -/
theorem extract_url_top_level_ignored_counterexample :
    extract_url
      [("archive_info".data, .obj []), ("url".data, .str "https://x".data)]
      "example_com".data = some (.str "https://example/com".data) ∧
    reconstructUrl "example_com".data = "https://example/com".data ∧
    "https://example/com".data ≠ "https://x".data :=
  ⟨rfl, rfl, by decide⟩

/-- C4 (amended): URL extraction precedence — (a) when the metadata
document has an `archive_info` object with a truthy `url`, that URL is
used; (b) when `archive_info` is present but its `url` is missing or
falsy, the URL is reconstructed from the resource id (the top-level
`url` field is ignored); (c) the top-level `url` field is used only
when `archive_info` is absent from a non-empty document; (d) a falsy
or absent top-level `url`, or an empty document, yields the
reconstruction (URL-decode the id with underscores as path
separators, prefixing `https://` when no scheme is present). -/
theorem extract_url_precedence_spec (metadata fs : List (Str × Json))
    (url_id : Str) :
    (jLookup "archive_info".data metadata = some (.obj fs) →
      truthy (dictGet fs "url".data (.str [])) = true →
      extract_url metadata url_id = some (dictGet fs "url".data (.str []))) ∧
    (jLookup "archive_info".data metadata = some (.obj fs) →
      truthy (dictGet fs "url".data (.str [])) = false →
      extract_url metadata url_id = some (.str (reconstructUrl url_id))) ∧
    (jLookup "archive_info".data metadata = none → metadata ≠ [] →
      truthy (dictGet metadata "url".data (.str [])) = true →
      extract_url metadata url_id = some (dictGet metadata "url".data (.str []))) ∧
    (jLookup "archive_info".data metadata = none → metadata ≠ [] →
      truthy (dictGet metadata "url".data (.str [])) = false →
      extract_url metadata url_id = some (.str (reconstructUrl url_id))) ∧
    (extract_url [] url_id = some (.str (reconstructUrl url_id))) := by
  refine ⟨?_, ?_, ?_, ?_, ?_⟩
  · intro h htr
    have hne : metadata.isEmpty = false := by
      cases metadata
      · simp [jLookup] at h
      · rfl
    simp [extract_url, h, hne, htr]
  · intro h htr
    have hne : metadata.isEmpty = false := by
      cases metadata
      · simp [jLookup] at h
      · rfl
    simp [extract_url, h, hne, htr]
  · intro h hne htr
    have hne' : metadata.isEmpty = false := by
      cases metadata
      · exact absurd rfl hne
      · rfl
    simp [extract_url, h, hne', htr]
  · intro h hne htr
    have hne' : metadata.isEmpty = false := by
      cases metadata
      · exact absurd rfl hne
      · rfl
    simp [extract_url, h, hne', htr]
  · simp [extract_url, truthy]

/-- C4 witness: the theorem instantiated at a document whose
`archive_info` object holds a truthy URL. -/
theorem extract_url_precedence_spec_witness :
    extract_url [("archive_info".data, .obj [("url".data, .str "https://a.b/c".data)])]
      "example_com".data = some (.str "https://a.b/c".data) :=
  (extract_url_precedence_spec
      [("archive_info".data, .obj [("url".data, .str "https://a.b/c".data)])]
      [("url".data, .str "https://a.b/c".data)] "example_com".data).1
    (by rfl) (by rfl)

/-- Two pointwise-equal adjacency relations check the same lists. -/
theorem pairwiseAdj_ext (r r' : α → α → Bool) (h : ∀ a b, r a b = r' a b) :
    ∀ l : List α, pairwiseAdj r l = pairwiseAdj r' l
  | [] => rfl
  | [_] => rfl
  | x :: y :: rest => by
    rw [show pairwiseAdj r (x :: y :: rest) = (r x y && pairwiseAdj r (y :: rest)) from rfl,
      show pairwiseAdj r' (x :: y :: rest) = (r' x y && pairwiseAdj r' (y :: rest)) from rfl,
      h, pairwiseAdj_ext r r' h (y :: rest)]

/-- C5 counterexample: two sibling capture directories with different
request ids but the same embedded timestamp produce a resource whose
captures list has two equal instants — descending, but not STRICTLY
descending as claimed. -/
theorem scan_strict_desc_counterexample :
    ((scan (fun _ => false) twinCaptureRoot).map
        fun kv => kv.2.snapshots.map (·.timestamp)) =
      [[⟨2024, 3, 15, 14, 30, 22⟩, ⟨2024, 3, 15, 14, 30, 22⟩]] ∧
    pairwiseAdj (fun a b : DateTime => dtLt b a)
      [⟨2024, 3, 15, 14, 30, 22⟩, ⟨2024, 3, 15, 14, 30, 22⟩] = false := by
  constructor
  · rfl
  · decide

/-- C5 (amended): in every catalog produced by a scan — for any
timeout behaviour and any storage root — every resource's captures
list is non-empty and sorted descending (non-strictly: each capture's
instant is greater than or equal to the next one's). -/
theorem scan_sorted_nonempty_spec (tmo : TimeoutOracle) (root : RootState) :
    ((scan tmo root).all fun kv =>
      !kv.2.snapshots.isEmpty &&
        pairwiseAdj (fun a b => !dtLt a.timestamp b.timestamp) kv.2.snapshots) = true := by
  rw [List.all_eq_true]
  intro kv hkv
  obtain ⟨h1, h2⟩ := scan_good tmo root kv hkv
  rw [Bool.and_eq_true]
  constructor
  · cases hsnaps : kv.2.snapshots
    · exact absurd hsnaps h1
    · rfl
  · rw [pairwiseAdj_ext (fun a b : Snap => !dtLt a.timestamp b.timestamp)
      (fun a b : Snap => decide (dtLt a.timestamp b.timestamp = false))
      (fun a b => by cases hab : dtLt a.timestamp b.timestamp <;> simp [hab])]
    exact h2

end Civers
